import Mathlib

/-!
Verification of the Message Processing Stack (MPS) design of the mbed TLS
repository against its natural-language specification.

The repository ships the MPS interface header (mps.h) with the complete data
model: reassembly slot states, retransmission-detection states, the blocking
info, the flight states, the configuration structure and the API surface.
The C implementation file of the MPS core is not part of the source tree,
so the behavioural parts (reassembly feeding, retransmission detection,
timeout backoff, replay protection, error propagation) are modelled from the
specification, faithful to its words and to the extensive design comments of
mps.h; each such definition is marked `Modelled from the spec:`.
Structures, enumerations and constants are embedded directly from mps.h.
-/

namespace MPS

/-! ## Constants and configuration (mps.h) -/

/-- From mps.h: `#define MBEDTLS_MPS_MAX_FLIGHT_LENGTH 5` — (DTLS only) the
maximum number of messages in a flight, used to allocate space for
retransmission backup handles. A compile-time macro, not a config field. -/
def MBEDTLS_MPS_MAX_FLIGHT_LENGTH : Nat := 5

/-- From mps.h: `#define MBEDTLS_MPS_FUTURE_MESSAGE_BUFFERS 4` — (DTLS only)
the maximum number of future messages to be buffered. A compile-time macro,
not a config field. -/
def MBEDTLS_MPS_FUTURE_MESSAGE_BUFFERS : Nat := 4

/-- From mps.h, `typedef struct { ... } mps_config`: the MPS configuration.
Its fields are exactly: `mode`, the Layer 3 context pointer `l3`, the
initial (minimum) retransmission timeout `hs_timeout_min`, the maximum
retransmission timeout `hs_timeout_max`, the timer context `p_timer` and the
two timer callbacks `f_get_timer` / `f_set_timer`. Pointer and callback
fields are embedded as opaque numeric identifiers. -/
structure mps_config where
  mode : Nat
  l3 : Nat
  hs_timeout_min : Nat
  hs_timeout_max : Nat
  p_timer : Nat
  f_get_timer : Nat
  f_set_timer : Nat
deriving DecidableEq

/-- From mps.h, field `dtls.outgoing.backup` of `struct mbedtls_mps`:
`mps_retransmission_handle backup[ MBEDTLS_MPS_MAX_FLIGHT_LENGTH ]`.
The capacity of the per-context retransmission backup array is fixed by the
macro and does not depend on the configuration of the context. -/
def outgoing_backup_capacity (_ : mps_config) : Nat :=
  MBEDTLS_MPS_MAX_FLIGHT_LENGTH

/-- From mps.h, field `dtls.incoming.reassembly` of `struct mbedtls_mps`:
`struct mps_msg_reassembly reassembly[ 1 + MBEDTLS_MPS_FUTURE_MESSAGE_BUFFERS ]`.
The number of future-message buffers of a context is fixed by the macro and
does not depend on the configuration of the context. -/
def future_message_buffer_capacity (_ : mps_config) : Nat :=
  MBEDTLS_MPS_FUTURE_MESSAGE_BUFFERS

/-- A concrete configuration (DTLS mode, 400ms initial timeout). -/
def mps_config_a : mps_config :=
  { mode := 1, l3 := 7, hs_timeout_min := 400, hs_timeout_max := 60000,
    p_timer := 0, f_get_timer := 1, f_set_timer := 2 }

/-- A second concrete configuration differing from `mps_config_a` in every
tunable field. -/
def mps_config_b : mps_config :=
  { mode := 0, l3 := 9, hs_timeout_min := 123, hs_timeout_max := 9999,
    p_timer := 3, f_get_timer := 4, f_set_timer := 5 }

/-! ## Retransmission timeout backoff (C4)

mps.h stores the current value in `dtls.wait.retransmit_timeout`
("Increases with every retransmission until a configurable threshold is
reached") with bounds `hs_timeout_min` / `hs_timeout_max` in `mps_config`.
The update policy itself is in the implementation file, absent from the
tree, and is therefore modelled from the spec. -/

/-- Modelled from the spec: "upon expiry without progress, the timeout is
doubled and retransmission or retransmission-request is initiated, capped at
the configured maximum" (mps.c timer policy, not in the source tree). -/
def retransmit_timeout_on_expiry (conf : mps_config) (t : Nat) : Nat :=
  min (2 * t) conf.hs_timeout_max

/-- Modelled from the spec: "Each successful progress event (full flight
received, or transition await to receive) resets the timeout to the minimum"
(mps.c timer policy, not in the source tree). -/
def retransmit_timeout_on_progress (conf : mps_config) : Nat :=
  conf.hs_timeout_min

/-- The retransmission timeout in force after `k` consecutive expiries with
no progress, starting from the configured initial (minimum) value. -/
def retransmit_timeout_after (conf : mps_config) : Nat → Nat
  | 0 => conf.hs_timeout_min
  | k + 1 => retransmit_timeout_on_expiry conf (retransmit_timeout_after conf k)

theorem retransmit_timeout_after_closed (conf : mps_config)
    (h : conf.hs_timeout_min ≤ conf.hs_timeout_max) (k : Nat) :
    retransmit_timeout_after conf k =
      min (2 ^ k * conf.hs_timeout_min) conf.hs_timeout_max := by
  induction k with
  | zero => simp [retransmit_timeout_after, h]
  | succ k ih =>
      rw [retransmit_timeout_after, retransmit_timeout_on_expiry, ih, pow_succ]
      have hk : 2 ^ k * 2 * conf.hs_timeout_min = 2 * (2 ^ k * conf.hs_timeout_min) := by
        ring
      rw [hk]
      omega

/-- C4: the retransmission timeout starts at the configured minimum; each
expiry without progress doubles it, capped at the configured maximum, so
after `k` consecutive expiries it equals `min (2^k * tmin) tmax` (a geometric
sequence with ratio 2 until the cap) and never exceeds the maximum; every
progress event resets it to the minimum. -/
theorem retransmit_timeout_policy (conf : mps_config)
    (h : conf.hs_timeout_min ≤ conf.hs_timeout_max) :
    retransmit_timeout_after conf 0 = conf.hs_timeout_min ∧
    (∀ k, retransmit_timeout_after conf (k + 1) =
        min (2 * retransmit_timeout_after conf k) conf.hs_timeout_max) ∧
    (∀ k, retransmit_timeout_after conf k =
        min (2 ^ k * conf.hs_timeout_min) conf.hs_timeout_max) ∧
    (∀ k, retransmit_timeout_after conf k ≤ conf.hs_timeout_max) ∧
    (∀ t, retransmit_timeout_on_expiry conf t ≤ conf.hs_timeout_max) ∧
    retransmit_timeout_on_progress conf = conf.hs_timeout_min := by
  refine ⟨rfl, fun k => rfl, retransmit_timeout_after_closed conf h, ?_, ?_, rfl⟩
  · intro k
    rw [retransmit_timeout_after_closed conf h]
    exact min_le_right _ _
  · intro t
    exact min_le_right _ _

/-- Witness for `retransmit_timeout_policy` at the concrete configuration
`mps_config_a` (400ms initial, 60000ms cap): after 8 expiries the timeout is
capped at 60000. -/
theorem retransmit_timeout_policy_witness :
    retransmit_timeout_after mps_config_a 8 = 60000 ∧
    retransmit_timeout_after mps_config_a 3 = 3200 := by
  have h := (retransmit_timeout_policy mps_config_a (by decide)).2.2.1
  have h8 := h 8
  have h3 := h 3
  rw [h8, h3]
  constructor <;> decide

/-! ## Init and configuration shape (C6)

mps.h declares `int mbedtls_mps_init( mbedtls_mps *mps, mps_l3 *l3, uint8_t
mode )`: initialization receives the Layer 3 context and the mode, and the
configuration structure `mps_config` carries the mode, the Layer 3 context,
the two retransmission-timeout bounds and the timer callbacks. The transport
callbacks are installed separately through `mbedtls_mps_set_bio`, and the
maximum flight length and the number of future-message buffers are the
compile-time macros above, not configuration fields. -/

/-- C6 counterexample: the maximum flight length and the number of
future-message buffers of an MPS context are NOT per-context configuration
values. The two concrete configurations `mps_config_a` and `mps_config_b`
differ in every tunable field, yet the retransmission-backup capacity and
the future-message-buffer capacity of contexts configured with them are the
same fixed macro values 5 and 4. -/
theorem init_config_capacities_counterexample :
    mps_config_a ≠ mps_config_b ∧
    outgoing_backup_capacity mps_config_a = outgoing_backup_capacity mps_config_b ∧
    future_message_buffer_capacity mps_config_a
      = future_message_buffer_capacity mps_config_b ∧
    outgoing_backup_capacity mps_config_a = 5 ∧
    future_message_buffer_capacity mps_config_a = 4 := by
  refine ⟨?_, rfl, rfl, rfl, rfl⟩
  intro h
  exact absurd (congrArg mps_config.mode h) (by decide)

/-- C6 amended: the configuration enumerates the mode, the Layer 3 context,
the retransmission timeout minimum and maximum, and the timer callbacks;
the maximum flight length (5) and the number of future-message buffers (4)
are fixed compile-time constants, identical for every configuration, and
are not supplied at init. Retransmission-timeout bounds, in contrast, ARE
genuine per-context configuration values. -/
theorem init_config_capacities :
    (∀ c : mps_config, outgoing_backup_capacity c = MBEDTLS_MPS_MAX_FLIGHT_LENGTH ∧
      future_message_buffer_capacity c = MBEDTLS_MPS_FUTURE_MESSAGE_BUFFERS) ∧
    MBEDTLS_MPS_MAX_FLIGHT_LENGTH = 5 ∧
    MBEDTLS_MPS_FUTURE_MESSAGE_BUFFERS = 4 ∧
    (∃ c₁ c₂ : mps_config, c₁.hs_timeout_min ≠ c₂.hs_timeout_min ∧
      c₁.hs_timeout_max ≠ c₂.hs_timeout_max) := by
  refine ⟨fun c => ⟨rfl, rfl⟩, rfl, rfl, mps_config_a, mps_config_b, by decide, by decide⟩

/-! ## Retransmission detection (C2, C3)

From mps.h: `mps_recognition_info` stores the `(epoch, seq_nr)` pair of a
message of the last incoming flight, and
`mbedtls_mps_retransmission_detection_state` is `ENABLED` (0) or `ON_HOLD`
(1). The `retransmission_detection` member of `struct mbedtls_mps` holds
`flight_len`, the `msg_state` array and the `msgs` array. The transition
logic lives in the implementation file, absent from the tree; it is modelled
from the spec, whose words match the design comment of mps.h verbatim. -/

/-- From mps.h: the per-message retransmission-detection state. -/
inductive mbedtls_mps_retransmission_detection_state where
  | ENABLED
  | ON_HOLD
deriving DecidableEq

/-- From mps.h: partial backup of a message of the last incoming flight,
identified by epoch and handshake sequence number. -/
structure mps_recognition_info where
  epoch : Nat
  seq_nr : Nat
deriving DecidableEq

/-- From mps.h, member `dtls.retransmission_detection` of `struct
mbedtls_mps`: the recognition entries of the last incoming flight together
with their detection states; `msgs` and `msg_state` are parallel arrays
(the stored `flight_len` is the length of `msgs`). -/
structure mps_retransmission_detection where
  msgs : List mps_recognition_info
  msg_state : List mbedtls_mps_retransmission_detection_state
deriving DecidableEq

/-- Index of the entry of the detection set carrying the given epoch and
handshake sequence number (recognition of retransmitted messages is based
on epoch and sequence number only, per mps.h). -/
def recognition_find (msgs : List mps_recognition_info) (epoch seq : Nat) :
    Option Nat :=
  match msgs with
  | [] => Option.none
  | m :: rest =>
    if m = ⟨epoch, seq⟩ then some 0
    else (recognition_find rest epoch seq).map (fun j => j + 1)

/-- Modelled from the spec: handling of a record arriving for a tracked
epoch and a handshake sequence number already in the detection set (mps.c,
not in the source tree): if that entry is `ENABLED`, trigger a
retransmission of our last outgoing flight (first component `true`), keep
the entry `ENABLED` and put all other entries `ON_HOLD`; if the entry is
`ON_HOLD`, flip it to `ENABLED` and do nothing else. Records not in the set
leave the state unchanged and trigger nothing. -/
def retransmission_detection_incoming (det : mps_retransmission_detection)
    (epoch seq : Nat) : Bool × mps_retransmission_detection :=
  match recognition_find det.msgs epoch seq with
  | Option.none => (false, det)
  | some i =>
    match det.msg_state.get? i with
    | some .ENABLED =>
        (true, { det with
          msg_state := (det.msg_state.map
            (fun _ => mbedtls_mps_retransmission_detection_state.ON_HOLD)).set i .ENABLED })
    | some .ON_HOLD =>
        (false, { det with msg_state := det.msg_state.set i .ENABLED })
    | Option.none => (false, det)

/-- Number of local retransmissions triggered while processing a list of
incoming `(epoch, seq)` records through the detection logic. -/
def retransmission_detection_trigger_count
    (det : mps_retransmission_detection) : List (Nat × Nat) → Nat
  | [] => 0
  | r :: rest =>
    (if (retransmission_detection_incoming det r.1 r.2).1 then 1 else 0) +
      retransmission_detection_trigger_count
        (retransmission_detection_incoming det r.1 r.2).2 rest

/-- C3: behaviour of the detection logic on a record whose `(epoch, seq)`
pair is entry `i` of the detection set. If entry `i` is `ENABLED`, a
retransmission is triggered, entry `i` stays `ENABLED` and every other
entry moves to `ON_HOLD`; if entry `i` is `ON_HOLD`, no retransmission is
triggered and the only change is that entry `i` becomes `ENABLED`. The
recognition entries themselves are never modified. -/
theorem retransmission_detection_incoming_spec
    (det : mps_retransmission_detection) (epoch seq : Nat) (i : Nat)
    (hfind : recognition_find det.msgs epoch seq = some i) :
    (det.msg_state.get? i = some .ENABLED →
      (retransmission_detection_incoming det epoch seq).1 = true ∧
      (retransmission_detection_incoming det epoch seq).2.msg_state.get? i
        = some .ENABLED ∧
      (∀ j, j ≠ i → j < det.msg_state.length →
        (retransmission_detection_incoming det epoch seq).2.msg_state.get? j
          = some .ON_HOLD) ∧
      (retransmission_detection_incoming det epoch seq).2.msgs = det.msgs) ∧
    (det.msg_state.get? i = some .ON_HOLD →
      (retransmission_detection_incoming det epoch seq).1 = false ∧
      (retransmission_detection_incoming det epoch seq).2.msg_state
        = det.msg_state.set i .ENABLED ∧
      (retransmission_detection_incoming det epoch seq).2.msgs = det.msgs) := by
  constructor
  · intro hstate
    have hi : i < det.msg_state.length := by
      by_contra hge
      rw [List.get?_eq_none.mpr (by omega)] at hstate
      exact Option.noConfusion hstate
    unfold retransmission_detection_incoming
    simp only [hfind, hstate]
    refine ⟨trivial, ?_, ?_, trivial⟩
    · show (_ : List _).get? i = _
      rw [List.get?_set_eq_of_lt]
      simpa using hi
    · intro j hji hj
      show (_ : List _).get? j = _
      rw [List.get?_set_ne _ _ (by omega), List.get?_map,
        List.get?_eq_get (by simpa using hj)]
      rfl
  · intro hstate
    unfold retransmission_detection_incoming
    simp only [hfind, hstate]
    exact ⟨trivial, trivial, trivial⟩

/-- Witness for `retransmission_detection_incoming_spec`: a two-entry
detection set in which entry 0 is `ENABLED`; the arrival of its record
triggers a retransmission and puts entry 1 `ON_HOLD`. -/
theorem retransmission_detection_incoming_spec_witness :
    (retransmission_detection_incoming
        ⟨[⟨0, 10⟩, ⟨0, 11⟩], [.ENABLED, .ENABLED]⟩ 0 10).1 = true ∧
    (retransmission_detection_incoming
        ⟨[⟨0, 10⟩, ⟨0, 11⟩], [.ENABLED, .ENABLED]⟩ 0 10).2.msg_state.get? 1
      = some .ON_HOLD := by
  have h := (retransmission_detection_incoming_spec
      ⟨[⟨0, 10⟩, ⟨0, 11⟩], [.ENABLED, .ENABLED]⟩ 0 10 0 (by decide)).1 (by decide)
  exact ⟨h.1, h.2.2.1 1 (by decide) (by decide)⟩

theorem recognition_find_get (epoch seq : Nat) :
    ∀ (msgs : List mps_recognition_info) (i : Nat),
      recognition_find msgs epoch seq = some i →
      msgs.get? i = some ⟨epoch, seq⟩
  | [], i, h => by simp [recognition_find] at h
  | m :: rest, i, h => by
      by_cases hm : m = (⟨epoch, seq⟩ : mps_recognition_info)
      · rw [recognition_find, if_pos hm] at h
        cases h
        simp [hm]
      · rw [recognition_find, if_neg hm] at h
        rcases Option.map_eq_some'.mp h with ⟨j, hj, hij⟩
        subst hij
        simpa using recognition_find_get epoch seq rest j hj

theorem recognition_find_inj {msgs : List mps_recognition_info}
    {e₁ s₁ e₂ s₂ i : Nat}
    (h₁ : recognition_find msgs e₁ s₁ = some i)
    (h₂ : recognition_find msgs e₂ s₂ = some i) : e₁ = e₂ ∧ s₁ = s₂ := by
  have g₁ := recognition_find_get e₁ s₁ msgs i h₁
  have g₂ := recognition_find_get e₂ s₂ msgs i h₂
  rw [g₁] at g₂
  simp only [Option.some.injEq, mps_recognition_info.mk.injEq] at g₂
  exact g₂

theorem retransmission_detection_incoming_of_find_none
    {det : mps_retransmission_detection} {e s : Nat}
    (hfind : recognition_find det.msgs e s = Option.none) :
    retransmission_detection_incoming det e s = (false, det) := by
  unfold retransmission_detection_incoming
  simp only [hfind]

theorem retransmission_detection_incoming_of_state_none
    {det : mps_retransmission_detection} {e s i : Nat}
    (hfind : recognition_find det.msgs e s = some i)
    (hstate : det.msg_state.get? i = Option.none) :
    retransmission_detection_incoming det e s = (false, det) := by
  unfold retransmission_detection_incoming
  simp only [hfind, hstate]

theorem retransmission_detection_incoming_of_on_hold
    {det : mps_retransmission_detection} {e s i : Nat}
    (hfind : recognition_find det.msgs e s = some i)
    (hstate : det.msg_state.get? i = some .ON_HOLD) :
    retransmission_detection_incoming det e s
      = (false, { det with msg_state := det.msg_state.set i .ENABLED }) := by
  unfold retransmission_detection_incoming
  simp only [hfind, hstate]

theorem retransmission_detection_incoming_of_enabled
    {det : mps_retransmission_detection} {e s i : Nat}
    (hfind : recognition_find det.msgs e s = some i)
    (hstate : det.msg_state.get? i = some .ENABLED) :
    retransmission_detection_incoming det e s
      = (true, { det with
          msg_state := (det.msg_state.map
            (fun _ => mbedtls_mps_retransmission_detection_state.ON_HOLD)).set
              i .ENABLED }) := by
  unfold retransmission_detection_incoming
  simp only [hfind, hstate]

/-- If no record of the (duplicate-free) list resolves to an `ENABLED`
entry of the detection set, processing the list triggers nothing. -/
theorem retransmission_detection_no_trigger (records : List (Nat × Nat)) :
    ∀ det : mps_retransmission_detection, records.Nodup →
      (∀ r ∈ records, ∀ i, recognition_find det.msgs r.1 r.2 = some i →
        det.msg_state.get? i ≠ some .ENABLED) →
      retransmission_detection_trigger_count det records = 0 := by
  induction records with
  | nil => intro det _ _; rfl
  | cons r rest ih =>
    intro det hnd hsafe
    have hr : r ∈ r :: rest := List.mem_cons_self r rest
    have hnotmem : r ∉ rest := (List.nodup_cons.mp hnd).1
    have hndrest : rest.Nodup := (List.nodup_cons.mp hnd).2
    rw [retransmission_detection_trigger_count]
    cases hfind : recognition_find det.msgs r.1 r.2 with
    | none =>
      rw [retransmission_detection_incoming_of_find_none hfind]
      simpa using ih det hndrest (fun q hq => hsafe q (List.mem_cons_of_mem r hq))
    | some i =>
      cases hstate : det.msg_state.get? i with
      | none =>
        rw [retransmission_detection_incoming_of_state_none hfind hstate]
        simpa using ih det hndrest (fun q hq => hsafe q (List.mem_cons_of_mem r hq))
      | some st =>
        cases st with
        | ENABLED => exact absurd hstate (hsafe r hr i hfind)
        | ON_HOLD =>
          rw [retransmission_detection_incoming_of_on_hold hfind hstate]
          simp only [if_neg (by simp : ¬(false = true)), Nat.zero_add]
          apply ih _ hndrest
          intro q hq j hfq
          have hfq0 : recognition_find det.msgs q.1 q.2 = some j := hfq
          by_cases hji : j = i
          · subst hji
            have hqr := recognition_find_inj hfq0 hfind
            have : q = r := Prod.ext hqr.1 hqr.2
            exact absurd (this ▸ hq) hnotmem
          · show (det.msg_state.set i _).get? j ≠ _
            rw [List.get?_set_ne _ _ (Ne.symm hji)]
            exact hsafe q (List.mem_cons_of_mem r hq) j hfq0

/-- C2: for each complete retransmission by the peer of its entire last
incoming flight — a duplicate-free list of `(epoch, seq)` records, each
message of the flight re-arriving at most once — the detection logic
triggers at most one retransmission of the local last outgoing flight,
from any initial detection state. -/
theorem peer_retransmission_triggers_at_most_one
    (records : List (Nat × Nat)) (hnd : records.Nodup) :
    ∀ det : mps_retransmission_detection,
      retransmission_detection_trigger_count det records ≤ 1 := by
  induction records with
  | nil => intro det; exact Nat.zero_le 1
  | cons r rest ih =>
    intro det
    have hnotmem : r ∉ rest := (List.nodup_cons.mp hnd).1
    have hndrest : rest.Nodup := (List.nodup_cons.mp hnd).2
    rw [retransmission_detection_trigger_count]
    cases hfind : recognition_find det.msgs r.1 r.2 with
    | none =>
      rw [retransmission_detection_incoming_of_find_none hfind]
      simpa using ih hndrest det
    | some i =>
      cases hstate : det.msg_state.get? i with
      | none =>
        rw [retransmission_detection_incoming_of_state_none hfind hstate]
        simpa using ih hndrest det
      | some st =>
        cases st with
        | ON_HOLD =>
          rw [retransmission_detection_incoming_of_on_hold hfind hstate]
          simpa using ih hndrest _
        | ENABLED =>
          rw [retransmission_detection_incoming_of_enabled hfind hstate]
          simp only [if_pos rfl]
          have hzero :
              retransmission_detection_trigger_count
                { det with
                  msg_state := (det.msg_state.map
                    (fun _ => mbedtls_mps_retransmission_detection_state.ON_HOLD)).set
                      i .ENABLED } rest = 0 := by
            apply retransmission_detection_no_trigger rest _ hndrest
            intro q hq j hfq
            have hfq0 : recognition_find det.msgs q.1 q.2 = some j := hfq
            by_cases hji : j = i
            · subst hji
              have hqr := recognition_find_inj hfq0 hfind
              have : q = r := Prod.ext hqr.1 hqr.2
              exact absurd (this ▸ hq) hnotmem
            · show ((det.msg_state.map _).set i _).get? j ≠ _
              rw [List.get?_set_ne _ _ (Ne.symm hji), List.get?_map]
              cases det.msg_state.get? j <;> simp
          rw [hzero]
          simp

/-- Witness for `peer_retransmission_triggers_at_most_one`: a full peer
retransmission of a three-message flight against an all-`ENABLED` detection
set triggers exactly one local retransmission. -/
theorem peer_retransmission_triggers_at_most_one_witness :
    retransmission_detection_trigger_count
        ⟨[⟨0, 10⟩, ⟨0, 11⟩, ⟨0, 12⟩], [.ENABLED, .ENABLED, .ENABLED]⟩
        [(0, 10), (0, 11), (0, 12)] ≤ 1 ∧
    retransmission_detection_trigger_count
        ⟨[⟨0, 10⟩, ⟨0, 11⟩, ⟨0, 12⟩], [.ENABLED, .ENABLED, .ENABLED]⟩
        [(0, 10), (0, 11), (0, 12)] = 1 := by
  refine ⟨peer_retransmission_triggers_at_most_one
    [(0, 10), (0, 11), (0, 12)] (by decide) _, by decide⟩

/-! ## Replay protection (C5)

The spec assigns replay protection to the Layer 2 record layer: a 64-bit
sliding bitmask per incoming epoch. The record-layer implementation is not
in the source tree, so the window is modelled from the spec. -/

/-- Modelled from the spec: the per-incoming-epoch replay-protection state
of the record layer (implementation not in the source tree). `hi` is the
highest record sequence number seen so far; bit `k` of the 64-bit `mask`
(0 ≤ k < 64) corresponds to sequence number `hi - k`. -/
structure replay_window where
  hi : Nat
  mask : Nat
deriving DecidableEq

/-- Modelled from the spec: replay check-and-update for an incoming record
sequence number `s` (record layer, not in the source tree): a record below
`hi - 63` is dropped; one strictly above `hi` slides the window and sets the
new top bit; one within the window is rejected when its bit is already set,
and otherwise has its bit set and is accepted. Returns the acceptance
verdict and the updated window. -/
def replay_check (w : replay_window) (s : Nat) : Bool × replay_window :=
  if s + 63 < w.hi then (false, w)
  else if w.hi < s then
    (true, ⟨s, ((w.mask <<< (s - w.hi)) ||| 1) % 2 ^ 64⟩)
  else
    if w.mask.testBit (w.hi - s) then (false, w)
    else (true, ⟨w.hi, w.mask ||| 2 ^ (w.hi - s)⟩)

/-- The subsequence of record sequence numbers accepted by the replay
window while processing a list of incoming records. -/
def replay_run (w : replay_window) : List Nat → List Nat
  | [] => []
  | s :: rest =>
    if (replay_check w s).1 then s :: replay_run (replay_check w s).2 rest
    else replay_run (replay_check w s).2 rest

/-- Sequence number `s` is recorded as seen by window `w`: it either fell
below the window or its window bit is set. -/
def replay_seen (w : replay_window) (s : Nat) : Bool :=
  decide (s + 63 < w.hi) || (decide (s ≤ w.hi) && w.mask.testBit (w.hi - s))

theorem replay_check_accept_seen {w : replay_window} {s : Nat}
    (h : (replay_check w s).1 = true) :
    replay_seen (replay_check w s).2 s = true := by
  unfold replay_check at h ⊢
  by_cases h1 : s + 63 < w.hi
  · rw [if_pos h1] at h; exact absurd h (by simp)
  · rw [if_neg h1] at h ⊢
    by_cases h2 : w.hi < s
    · rw [if_pos h2] at h ⊢
      simp only [replay_seen]
      have hbit : ((((w.mask <<< (s - w.hi)) ||| 1) % 2 ^ 64).testBit 0) = true := by
        rw [Nat.testBit_mod_two_pow, Nat.testBit_or]
        simp [Nat.testBit_one_zero]
      simp only [replay_seen, Nat.sub_self]
      rw [hbit]
      simp
    · rw [if_neg h2] at h ⊢
      by_cases h3 : w.mask.testBit (w.hi - s)
      · rw [if_pos h3] at h; exact absurd h (by simp)
      · rw [if_neg h3]
        simp only [replay_seen, Nat.testBit_or, Nat.testBit_two_pow_self]
        have hs : s ≤ w.hi := Nat.le_of_not_lt h2
        simp [hs]

theorem replay_seen_preserved {w : replay_window} {s : Nat}
    (hseen : replay_seen w s = true) (s₂ : Nat) :
    replay_seen (replay_check w s₂).2 s = true := by
  unfold replay_check
  by_cases h1 : s₂ + 63 < w.hi
  · rw [if_pos h1]; exact hseen
  · rw [if_neg h1]
    simp only [replay_seen, Bool.or_eq_true, Bool.and_eq_true,
      decide_eq_true_eq] at hseen
    by_cases h2 : w.hi < s₂
    · rw [if_pos h2]
      simp only [replay_seen, Bool.or_eq_true, Bool.and_eq_true,
        decide_eq_true_eq]
      rcases hseen with hA | ⟨hle, hbit⟩
      · left; omega
      · by_cases hout : s + 63 < s₂
        · left; exact hout
        · right
          refine ⟨by omega, ?_⟩
          rw [Nat.testBit_mod_two_pow, Nat.testBit_or, Nat.testBit_shiftLeft]
          have e1 : s₂ - s < 64 := by omega
          have e2 : s₂ - w.hi ≤ s₂ - s := by omega
          have e3 : s₂ - s - (s₂ - w.hi) = w.hi - s := by omega
          simp [e1, e2, e3, hbit]
    · rw [if_neg h2]
      by_cases h3 : w.mask.testBit (w.hi - s₂)
      · rw [if_pos h3]
        simp only [replay_seen, Bool.or_eq_true, Bool.and_eq_true,
          decide_eq_true_eq]
        exact hseen
      · rw [if_neg h3]
        simp only [replay_seen, Bool.or_eq_true, Bool.and_eq_true,
          decide_eq_true_eq, Nat.testBit_or]
        rcases hseen with hA | ⟨hle, hbit⟩
        · left; exact hA
        · right; exact ⟨hle, by simp [hbit]⟩

theorem replay_seen_reject {w : replay_window} {s : Nat}
    (hseen : replay_seen w s = true) :
    (replay_check w s).1 = false := by
  unfold replay_check
  by_cases h1 : s + 63 < w.hi
  · rw [if_pos h1]
  · rw [if_neg h1]
    simp only [replay_seen, Bool.or_eq_true, Bool.and_eq_true,
      decide_eq_true_eq] at hseen
    rcases hseen with hA | ⟨hle, hbit⟩
    · exact absurd hA h1
    · rw [if_neg (by omega), if_pos hbit]

theorem replay_run_count_zero :
    ∀ (l : List Nat) (w : replay_window) (s : Nat),
      replay_seen w s = true → (replay_run w l).count s = 0
  | [], _, _, _ => rfl
  | s₂ :: rest, w, s, hseen => by
      rw [replay_run]
      by_cases hacc : (replay_check w s₂).1 = true
      · rw [if_pos hacc]
        have hne : s₂ ≠ s := by
          intro he
          subst he
          rw [replay_seen_reject hseen] at hacc
          exact Bool.noConfusion hacc
        rw [List.count_cons_of_ne (by simpa using Ne.symm hne)]
        exact replay_run_count_zero rest (replay_check w s₂).2 s
          (replay_seen_preserved hseen s₂)
      · rw [if_neg hacc]
        exact replay_run_count_zero rest (replay_check w s₂).2 s
          (replay_seen_preserved hseen s₂)

theorem replay_run_count_le_one :
    ∀ (l : List Nat) (w : replay_window) (s : Nat),
      (replay_run w l).count s ≤ 1
  | [], _, _ => by simp [replay_run]
  | s₂ :: rest, w, s => by
      rw [replay_run]
      by_cases hacc : (replay_check w s₂).1 = true
      · rw [if_pos hacc]
        by_cases heq : s₂ = s
        · subst heq
          rw [List.count_cons_self]
          have hz : (replay_run (replay_check w s₂).2 rest).count s₂ = 0 :=
            replay_run_count_zero rest _ s₂ (replay_check_accept_seen hacc)
          omega
        · rw [List.count_cons_of_ne (by simpa using Ne.symm heq)]
          exact replay_run_count_le_one rest _ s
      · rw [if_neg hacc]
        exact replay_run_count_le_one rest _ s

/-- C5: replay protection per incoming epoch is a 64-bit sliding bitmask
over record sequence numbers. A record below `hi - 63` is dropped without
changing the window; one strictly above `hi` is accepted, slides the window
to the new `hi` and sets the new top bit; one within the window is rejected
exactly when its bit is already set, and otherwise has its bit set and is
accepted; every accepted record lies within the window at acceptance time;
and along any sequence of incoming records, no record sequence number is
ever accepted twice on the same epoch. -/
theorem replay_protection_spec :
    (∀ (w : replay_window) (s : Nat), s + 63 < w.hi →
      replay_check w s = (false, w)) ∧
    (∀ (w : replay_window) (s : Nat), w.hi < s →
      (replay_check w s).1 = true ∧ (replay_check w s).2.hi = s ∧
        (replay_check w s).2.mask.testBit 0 = true) ∧
    (∀ (w : replay_window) (s : Nat), ¬ s + 63 < w.hi → s ≤ w.hi →
      (w.mask.testBit (w.hi - s) = true → replay_check w s = (false, w)) ∧
      (w.mask.testBit (w.hi - s) = false →
        (replay_check w s).1 = true ∧
        (replay_check w s).2 = ⟨w.hi, w.mask ||| 2 ^ (w.hi - s)⟩)) ∧
    (∀ (w : replay_window) (s : Nat), (replay_check w s).1 = true →
      ¬ s + 63 < w.hi) ∧
    (∀ (l : List Nat) (w : replay_window) (s : Nat),
      (replay_run w l).count s ≤ 1) := by
  refine ⟨?_, ?_, ?_, ?_, fun l w s => replay_run_count_le_one l w s⟩
  · intro w s h
    unfold replay_check
    rw [if_pos h]
  · intro w s h
    have h1 : ¬ s + 63 < w.hi := by omega
    unfold replay_check
    rw [if_neg h1, if_pos h]
    refine ⟨rfl, rfl, ?_⟩
    rw [Nat.testBit_mod_two_pow, Nat.testBit_or]
    simp [Nat.testBit_one_zero]
  · intro w s h1 h2
    have h2n : ¬ w.hi < s := by omega
    constructor
    · intro hbit
      unfold replay_check
      rw [if_neg h1, if_neg h2n, if_pos hbit]
    · intro hbit
      unfold replay_check
      rw [if_neg h1, if_neg h2n, if_neg (by simp [hbit])]
      exact ⟨rfl, rfl⟩
  · intro w s hacc
    intro hlt
    unfold replay_check at hacc
    rw [if_pos hlt] at hacc
    exact Bool.noConfusion hacc

/-- Witness for `replay_protection_spec`: from the window with `hi = 100`
and an empty mask, sequence number 20 (below `100 - 63`) is dropped, 200
slides the window, and feeding the list `[5, 5]` accepts 5 at most once. -/
theorem replay_protection_spec_witness :
    replay_check ⟨100, 0⟩ 20 = (false, ⟨100, 0⟩) ∧
    (replay_check ⟨100, 0⟩ 200).1 = true ∧
    (replay_run ⟨0, 0⟩ [5, 5]).count 5 ≤ 1 := by
  refine ⟨replay_protection_spec.1 ⟨100, 0⟩ 20 (by decide),
    (replay_protection_spec.2.1 ⟨100, 0⟩ 200 (by decide)).1,
    replay_protection_spec.2.2.2.2 [5, 5] ⟨0, 0⟩ 5⟩

/-! ## Reassembly submodule (C1, C7, C10)

From mps.h: `mbedtls_mps_msg_reassembly_state` has the three values
`MPS_REASSEMBLY_NONE`, `MPS_REASSEMBLY_NO_FRAGMENTATION` and
`MPS_REASSEMBLY_WINDOW`; a slot `struct mps_msg_reassembly` stores the
status, handshake type, epoch, total length, and a data union that is the
borrowed Layer 3 reader exactly when the status is `NO_FRAGMENTATION` and
the owned reassembly buffer plus bitmask exactly when it is `WINDOW`;
`struct mps_reassembly` stores `next_seq_nr` and the array of
`1 + MBEDTLS_MPS_FUTURE_MESSAGE_BUFFERS` slots. The feeding and consuming
logic is in the implementation file, absent from the tree, and is modelled
from the spec. -/

/-- From mps.h: the reassembly status of a slot. The data union of the slot
is folded into the constructors: `NO_FRAGMENTATION` carries the contents
accessible through the borrowed Layer 3 reader, and `WINDOW` carries the
owned reassembly buffer merged with its bitmask, one optional byte per
position (a byte is `some` exactly when its bitmask bit is set). -/
inductive mbedtls_mps_msg_reassembly_state where
  | NONE
  | NO_FRAGMENTATION (rd_ext_l3 : List Nat)
  | WINDOW (window : List (Option Nat))
deriving DecidableEq

/-- From mps.h: one entry of the reassembly array: status with contents,
handshake type, epoch, and total handshake message length (the C field
`type` is a Lean keyword and is embedded as `htype`). -/
structure mps_msg_reassembly where
  status : mbedtls_mps_msg_reassembly_state
  htype : Nat
  epoch : Nat
  length : Nat
deriving DecidableEq

/-- An unused slot (`MPS_REASSEMBLY_NONE`). -/
def mps_msg_reassembly_empty : mps_msg_reassembly :=
  ⟨.NONE, 0, 0, 0⟩

/-- From mps.h: the reassembly structure: the next expected handshake
sequence number and the `1 + MBEDTLS_MPS_FUTURE_MESSAGE_BUFFERS` slots
(slot 0 is the next expected message, slots `1..K` are future messages). -/
structure mps_reassembly where
  next_seq_nr : Nat
  reassembly : List mps_msg_reassembly
deriving DecidableEq

/-- The reassembly state at initialization, expecting `seq0` as the first
handshake sequence number of the next incoming flight. -/
def mps_reassembly_init (seq0 : Nat) : mps_reassembly :=
  ⟨seq0, List.replicate (1 + MBEDTLS_MPS_FUTURE_MESSAGE_BUFFERS)
    mps_msg_reassembly_empty⟩

/-- A handshake fragment as reported by Layer 3 in datagram mode: handshake
sequence number, type, epoch, total message length, fragment offset and
fragment bytes (the fragment length is the length of `bytes`). -/
structure mps_l3_hs_fragment where
  seq : Nat
  htype : Nat
  epoch : Nat
  total_len : Nat
  offset : Nat
  bytes : List Nat
deriving DecidableEq

/-- Write the bytes of a fragment into a reassembly window at the given
offset, marking each written position. Overlapping bytes must agree and the
fragment must stay within the declared total length; otherwise the merge
fails (fatal invalid-record). -/
def window_write (w : List (Option Nat)) (off : Nat) :
    List Nat → Option (List (Option Nat))
  | [] => some w
  | b :: rest =>
    match w.get? off with
    | Option.none => Option.none
    | some Option.none => window_write (w.set off (some b)) (off + 1) rest
    | some (some b₀) =>
        if b₀ = b then window_write w (off + 1) rest else Option.none

/-- All positions of the window have been received (the bitmask is full). -/
def window_complete (w : List (Option Nat)) : Bool :=
  w.all (fun b => b.isSome)

/-- Modelled from the spec: merging one Layer 3 handshake fragment into the
slot at index `idx` of the reassembly array (mps.c, not in the source
tree). An empty slot 0 receiving the entire message in one fragment moves
to `NO_FRAGMENTATION`, borrowing the Layer 3 reader; any other fragment for
an empty slot allocates a window sized to the declared total length; a
`NO_FRAGMENTATION` slot is upgraded to `WINDOW` by copying the borrowed
bytes into an owned buffer before merging; fragments must agree with the
slot on type, total length and epoch, and overlapping bytes must match
(mismatch is a fatal invalid-record, returned as `Option.none`). -/
def slot_feed (idx : Nat) (slot : mps_msg_reassembly)
    (frag : mps_l3_hs_fragment) : Option mps_msg_reassembly :=
  match slot.status with
  | .NONE =>
      if idx = 0 ∧ frag.offset = 0 ∧ frag.bytes.length = frag.total_len then
        some ⟨.NO_FRAGMENTATION frag.bytes, frag.htype, frag.epoch,
          frag.total_len⟩
      else
        match window_write (List.replicate frag.total_len Option.none)
            frag.offset frag.bytes with
        | some w => some ⟨.WINDOW w, frag.htype, frag.epoch, frag.total_len⟩
        | Option.none => Option.none
  | .NO_FRAGMENTATION content =>
      if slot.htype = frag.htype ∧ slot.length = frag.total_len ∧
          slot.epoch = frag.epoch then
        match window_write (List.replicate slot.length Option.none) 0
            content with
        | some w₀ =>
          match window_write w₀ frag.offset frag.bytes with
          | some w => some { slot with status := .WINDOW w }
          | Option.none => Option.none
        | Option.none => Option.none
      else Option.none
  | .WINDOW w =>
      if slot.htype = frag.htype ∧ slot.length = frag.total_len ∧
          slot.epoch = frag.epoch then
        match window_write w frag.offset frag.bytes with
        | some w₂ => some { slot with status := .WINDOW w₂ }
        | Option.none => Option.none
      else Option.none

/-- Modelled from the spec: feeding a new handshake fragment from Layer 3
into the reassembly submodule (mps.c, not in the source tree). A fragment
of an already-consumed sequence number (`seq < next_seq_nr`) is dropped
(its recognition is the job of the retransmission-detection logic); a
fragment more than `MBEDTLS_MPS_FUTURE_MESSAGE_BUFFERS` messages ahead is
dropped; otherwise the fragment is merged into the slot at index
`seq - next_seq_nr`. `Option.none` is the fatal invalid-record outcome. -/
def mps_reassembly_feed (st : mps_reassembly) (frag : mps_l3_hs_fragment) :
    Option mps_reassembly :=
  if frag.seq < st.next_seq_nr then some st
  else if MBEDTLS_MPS_FUTURE_MESSAGE_BUFFERS < frag.seq - st.next_seq_nr then
    some st
  else
    match st.reassembly.get? (frag.seq - st.next_seq_nr) with
    | Option.none => Option.none
    | some slot =>
      match slot_feed (frag.seq - st.next_seq_nr) slot frag with
      | some slot₂ =>
          some { st with
            reassembly := st.reassembly.set (frag.seq - st.next_seq_nr) slot₂ }
      | Option.none => Option.none

/-- The next expected handshake message has been fully received and can be
delivered to the user. -/
def slot_complete (slot : mps_msg_reassembly) : Bool :=
  match slot.status with
  | .NO_FRAGMENTATION _ => true
  | .WINDOW w => window_complete w
  | .NONE => false

/-- The reassembly submodule is in its `Available` state: slot 0 holds the
complete next expected handshake message. -/
def mps_reassembly_available (st : mps_reassembly) : Bool :=
  match st.reassembly.get? 0 with
  | some slot => slot_complete slot
  | Option.none => false

/-- Modelled from the spec: consuming the current handshake message
(mps.c, not in the source tree): slot 0 is cleared, every slot shifts down
by one, and `next_seq_nr` is incremented. -/
def mps_reassembly_consume (st : mps_reassembly) : mps_reassembly :=
  ⟨st.next_seq_nr + 1, st.reassembly.tail ++ [mps_msg_reassembly_empty]⟩

/-- One event at the reassembly interface: a fragment fed by Layer 3, or
the user consuming the currently available message. -/
inductive mps_reassembly_event where
  | feed (frag : mps_l3_hs_fragment)
  | consume

/-- One step of the reassembly submodule, returning the new state and the
handshake sequence number delivered to the user, if any. A consume request
delivers only when a complete message is available; a feeding error leaves
the state unchanged (in the implementation it additionally blocks the MPS,
which only removes later deliveries). -/
def mps_reassembly_step (st : mps_reassembly) :
    mps_reassembly_event → mps_reassembly × Option Nat
  | .feed frag =>
    match mps_reassembly_feed st frag with
    | some st₂ => (st₂, Option.none)
    | Option.none => (st, Option.none)
  | .consume =>
    if mps_reassembly_available st then
      (mps_reassembly_consume st, some st.next_seq_nr)
    else (st, Option.none)

/-- Run the reassembly submodule over a list of events, collecting the
handshake sequence numbers delivered to the user, in delivery order. -/
def mps_reassembly_run (st : mps_reassembly) :
    List mps_reassembly_event → mps_reassembly × List Nat
  | [] => (st, [])
  | e :: rest =>
    ((mps_reassembly_run (mps_reassembly_step st e).1 rest).1,
      (match (mps_reassembly_step st e).2 with
        | some s => [s]
        | Option.none => []) ++
        (mps_reassembly_run (mps_reassembly_step st e).1 rest).2)

/-- The list of `n` consecutive sequence numbers starting at `s`. -/
def seq_range (s : Nat) : Nat → List Nat
  | 0 => []
  | n + 1 => s :: seq_range (s + 1) n

theorem mem_seq_range {x : Nat} :
    ∀ (n s : Nat), x ∈ seq_range s n ↔ s ≤ x ∧ x < s + n
  | 0, s => by
      rw [seq_range]
      constructor
      · intro h
        exact absurd h (List.not_mem_nil x)
      · intro h
        omega
  | n + 1, s => by
      rw [seq_range, List.mem_cons, mem_seq_range n (s + 1)]
      omega

theorem seq_range_nodup : ∀ (n s : Nat), (seq_range s n).Nodup
  | 0, _ => List.nodup_nil
  | n + 1, s => by
      rw [seq_range, List.nodup_cons]
      exact ⟨fun hmem => by have := (mem_seq_range n (s + 1)).mp hmem; omega,
        seq_range_nodup n (s + 1)⟩

theorem seq_range_count_le_one (n s x : Nat) :
    (seq_range s n).count x ≤ 1 := by
  exact List.nodup_iff_count_le_one.mp (seq_range_nodup n s) x

theorem mps_reassembly_feed_next {st st₂ : mps_reassembly}
    {f : mps_l3_hs_fragment} (h : mps_reassembly_feed st f = some st₂) :
    st₂.next_seq_nr = st.next_seq_nr := by
  unfold mps_reassembly_feed at h
  by_cases h1 : f.seq < st.next_seq_nr
  · rw [if_pos h1] at h; cases h; rfl
  · rw [if_neg h1] at h
    by_cases h2 : MBEDTLS_MPS_FUTURE_MESSAGE_BUFFERS < f.seq - st.next_seq_nr
    · rw [if_pos h2] at h; cases h; rfl
    · rw [if_neg h2] at h
      cases hg : st.reassembly.get? (f.seq - st.next_seq_nr) with
      | none =>
        simp only [hg] at h
        exact Option.noConfusion h
      | some slot =>
        simp only [hg] at h
        cases hs : slot_feed (f.seq - st.next_seq_nr) slot f with
        | none =>
          simp only [hs] at h
          exact Option.noConfusion h
        | some slot₂ =>
          simp only [hs, Option.some.injEq] at h
          rw [← h]

/-- Any step either delivers nothing and keeps `next_seq_nr`, or delivers
exactly the current `next_seq_nr` and increments it. -/
theorem mps_reassembly_step_cases (st : mps_reassembly)
    (e : mps_reassembly_event) :
    ((mps_reassembly_step st e).2 = Option.none ∧
      (mps_reassembly_step st e).1.next_seq_nr = st.next_seq_nr) ∨
    ((mps_reassembly_step st e).2 = some st.next_seq_nr ∧
      (mps_reassembly_step st e).1.next_seq_nr = st.next_seq_nr + 1) := by
  cases e with
  | feed frag =>
    rw [mps_reassembly_step]
    cases hf : mps_reassembly_feed st frag with
    | none => exact Or.inl ⟨rfl, rfl⟩
    | some st₂ => exact Or.inl ⟨rfl, mps_reassembly_feed_next hf⟩
  | consume =>
    rw [mps_reassembly_step]
    by_cases hav : mps_reassembly_available st = true
    · rw [if_pos hav]
      exact Or.inr ⟨rfl, rfl⟩
    · rw [if_neg hav]
      exact Or.inl ⟨rfl, rfl⟩

/-- The sequence numbers delivered along any run are exactly the
consecutive range starting at the initial `next_seq_nr`, and the final
`next_seq_nr` has advanced by the number of deliveries. -/
theorem mps_reassembly_run_range (events : List mps_reassembly_event) :
    ∀ st : mps_reassembly,
      (mps_reassembly_run st events).2 =
        seq_range st.next_seq_nr (mps_reassembly_run st events).2.length ∧
      (mps_reassembly_run st events).1.next_seq_nr =
        st.next_seq_nr + (mps_reassembly_run st events).2.length := by
  induction events with
  | nil => intro st; exact ⟨rfl, rfl⟩
  | cons e rest ih =>
    intro st
    rw [mps_reassembly_run]
    rcases mps_reassembly_step_cases st e with ⟨hd, hnext⟩ | ⟨hd, hnext⟩
    · rw [hd]
      rcases ih (mps_reassembly_step st e).1 with ⟨ihr, ihn⟩
      rw [hnext] at ihr ihn
      simpa using ⟨ihr, ihn⟩
    · rw [hd]
      rcases ih (mps_reassembly_step st e).1 with ⟨ihr, ihn⟩
      rw [hnext] at ihr ihn
      dsimp only
      simp only [List.singleton_append, List.length_cons]
      constructor
      · rw [seq_range, ← ihr]
      · rw [ihn]
        omega

theorem mps_reassembly_feed_old_dropped {st : mps_reassembly}
    {f : mps_l3_hs_fragment} (h : f.seq < st.next_seq_nr) :
    mps_reassembly_feed st f = some st := by
  unfold mps_reassembly_feed
  rw [if_pos h]

/-- Feeding a complete single-fragment copy of the next expected message
into an empty slot 0 makes the message available for delivery. -/
theorem mps_reassembly_feed_complete_available {st : mps_reassembly}
    {f : mps_l3_hs_fragment}
    (hslot : st.reassembly.get? 0 = some mps_msg_reassembly_empty)
    (hseq : f.seq = st.next_seq_nr) (hoff : f.offset = 0)
    (hfull : f.bytes.length = f.total_len) :
    ∃ st₂, mps_reassembly_feed st f = some st₂ ∧
      mps_reassembly_available st₂ = true := by
  have hidx : f.seq - st.next_seq_nr = 0 := by omega
  have hslotfeed : slot_feed 0 mps_msg_reassembly_empty f =
      some (mps_msg_reassembly.mk (.NO_FRAGMENTATION f.bytes) f.htype
        f.epoch f.total_len) := by
    unfold slot_feed mps_msg_reassembly_empty
    dsimp only
    rw [if_pos ⟨rfl, hoff, hfull⟩]
  refine ⟨⟨st.next_seq_nr, st.reassembly.set 0 (mps_msg_reassembly.mk (.NO_FRAGMENTATION f.bytes) f.htype f.epoch f.total_len)⟩, ?_, ?_⟩
  · unfold mps_reassembly_feed
    rw [if_neg (by omega), if_neg (by rw [hidx]; decide), hidx]
    simp only [hslot, hslotfeed]
  · have hlen : 0 < st.reassembly.length := by
      cases hr : st.reassembly with
      | nil => rw [hr] at hslot; exact Option.noConfusion hslot
      | cons a t => simp
    unfold mps_reassembly_available
    rw [List.get?_set_eq_of_lt _ (by simpa using hlen)]
    rfl

/-- C1: along any sequence of feed and consume events — covering arbitrary
fragmentation, retransmission, reordering and duplication of handshake
messages on the wire — the handshake sequence numbers delivered to the user
form the exact consecutive range starting at the initial expected sequence
number: each sequence number is delivered at most once (never twice), in
order; a fragment carrying an already-consumed sequence number is ignored
without redelivery; and a complete retransmitted copy of the currently
expected message is (re)delivered once it arrives, so that under a lossy
but non-corrupting channel every message is delivered exactly once. -/
theorem handshake_delivered_exactly_once (seq0 : Nat)
    (events : List mps_reassembly_event) :
    ((mps_reassembly_run (mps_reassembly_init seq0) events).2 =
      seq_range seq0
        (mps_reassembly_run (mps_reassembly_init seq0) events).2.length) ∧
    ((mps_reassembly_run (mps_reassembly_init seq0) events).2.Nodup) ∧
    (∀ s, (mps_reassembly_run (mps_reassembly_init seq0) events).2.count s ≤ 1) ∧
    (∀ (st : mps_reassembly) (f : mps_l3_hs_fragment),
      f.seq < st.next_seq_nr → mps_reassembly_feed st f = some st) ∧
    (∀ (st : mps_reassembly) (f : mps_l3_hs_fragment),
      st.reassembly.get? 0 = some mps_msg_reassembly_empty →
      f.seq = st.next_seq_nr → f.offset = 0 →
      f.bytes.length = f.total_len →
      ∃ st₂, mps_reassembly_feed st f = some st₂ ∧
        mps_reassembly_available st₂ = true) := by
  have hrange := (mps_reassembly_run_range events (mps_reassembly_init seq0)).1
  refine ⟨hrange, ?_, ?_, ?_, ?_⟩
  · rw [hrange]; exact seq_range_nodup _ _
  · intro s
    rw [hrange]
    exact seq_range_count_le_one _ _ s
  · intro st f h
    exact mps_reassembly_feed_old_dropped h
  · intro st f hslot hseq hoff hfull
    exact mps_reassembly_feed_complete_available hslot hseq hoff hfull

/-- Witness for `handshake_delivered_exactly_once`: feeding the complete
message 0 twice (a duplicate) and consuming twice delivers sequence number
0 exactly once. -/
theorem handshake_delivered_exactly_once_witness :
    (mps_reassembly_run (mps_reassembly_init 0)
      [.feed ⟨0, 1, 0, 2, 0, [7, 8]⟩, .consume,
       .feed ⟨0, 1, 0, 2, 0, [7, 8]⟩, .consume]).2 = [0] := by
  have h := (handshake_delivered_exactly_once 0
      [.feed ⟨0, 1, 0, 2, 0, [7, 8]⟩, .consume,
       .feed ⟨0, 1, 0, 2, 0, [7, 8]⟩, .consume]).1
  rw [h]
  decide

theorem list_tail_get? {α : Type} (l : List α) (n : Nat) :
    l.tail.get? n = l.get? (n + 1) := by
  cases l <;> rfl

/-- C7: the reassembly submodule owns exactly
`1 + MBEDTLS_MPS_FUTURE_MESSAGE_BUFFERS` slots, and feeding and consuming
preserve that slot count; a fragment with `seq > next_seq_nr` is merged
into slot `seq - next_seq_nr` (all other slots untouched) when
`seq - next_seq_nr ≤ K`, and is dropped without any state change when
`seq - next_seq_nr > K`; and a complete future message buffered in slot 1
becomes available for delivery as soon as the expected message is consumed,
recovering in-order delivery. -/
theorem reassembly_slot_management (seq0 : Nat) :
    (mps_reassembly_init seq0).reassembly.length
        = 1 + MBEDTLS_MPS_FUTURE_MESSAGE_BUFFERS ∧
    (∀ (st : mps_reassembly) (f : mps_l3_hs_fragment) (st₂ : mps_reassembly),
      mps_reassembly_feed st f = some st₂ →
      st₂.reassembly.length = st.reassembly.length) ∧
    (∀ st : mps_reassembly, 0 < st.reassembly.length →
      (mps_reassembly_consume st).reassembly.length = st.reassembly.length) ∧
    (∀ (st : mps_reassembly) (f : mps_l3_hs_fragment) (st₂ : mps_reassembly),
      st.next_seq_nr < f.seq →
      f.seq - st.next_seq_nr ≤ MBEDTLS_MPS_FUTURE_MESSAGE_BUFFERS →
      mps_reassembly_feed st f = some st₂ →
      ∃ slot slot₂,
        st.reassembly.get? (f.seq - st.next_seq_nr) = some slot ∧
        slot_feed (f.seq - st.next_seq_nr) slot f = some slot₂ ∧
        st₂.reassembly = st.reassembly.set (f.seq - st.next_seq_nr) slot₂) ∧
    (∀ (st : mps_reassembly) (f : mps_l3_hs_fragment),
      MBEDTLS_MPS_FUTURE_MESSAGE_BUFFERS < f.seq - st.next_seq_nr →
      mps_reassembly_feed st f = some st) ∧
    (∀ st : mps_reassembly,
      (∃ slot, st.reassembly.get? 1 = some slot ∧ slot_complete slot = true) →
      mps_reassembly_available (mps_reassembly_consume st) = true) := by
  refine ⟨by simp [mps_reassembly_init], ?_, ?_, ?_, ?_, ?_⟩
  · intro st f st₂ h
    unfold mps_reassembly_feed at h
    by_cases h1 : f.seq < st.next_seq_nr
    · rw [if_pos h1] at h; cases h; rfl
    · rw [if_neg h1] at h
      by_cases h2 : MBEDTLS_MPS_FUTURE_MESSAGE_BUFFERS < f.seq - st.next_seq_nr
      · rw [if_pos h2] at h; cases h; rfl
      · rw [if_neg h2] at h
        cases hg : st.reassembly.get? (f.seq - st.next_seq_nr) with
        | none =>
          simp only [hg] at h
          exact Option.noConfusion h
        | some slot =>
          simp only [hg] at h
          cases hs : slot_feed (f.seq - st.next_seq_nr) slot f with
          | none =>
            simp only [hs] at h
            exact Option.noConfusion h
          | some slot₂ =>
            simp only [hs, Option.some.injEq] at h
            rw [← h]
            exact List.length_set st.reassembly _ _
  · intro st h
    show (st.reassembly.tail ++ [mps_msg_reassembly_empty]).length = _
    rw [List.length_append, List.length_tail]
    simp
    omega
  · intro st f st₂ h1 h2 hfeed
    unfold mps_reassembly_feed at hfeed
    rw [if_neg (by omega), if_neg (by omega)] at hfeed
    cases hg : st.reassembly.get? (f.seq - st.next_seq_nr) with
    | none =>
      simp only [hg] at hfeed
      exact Option.noConfusion hfeed
    | some slot =>
      simp only [hg] at hfeed
      cases hs : slot_feed (f.seq - st.next_seq_nr) slot f with
      | none =>
        simp only [hs] at hfeed
        exact Option.noConfusion hfeed
      | some slot₂ =>
        simp only [hs, Option.some.injEq] at hfeed
        refine ⟨slot, slot₂, ?_, ?_, ?_⟩
        · rfl
        · exact hs
        · rw [← hfeed]
  · intro st f h
    unfold mps_reassembly_feed
    by_cases h1 : f.seq < st.next_seq_nr
    · rw [if_pos h1]
    · rw [if_neg h1, if_pos h]
  · intro st hs
    rcases hs with ⟨slot, hget, hcomp⟩
    have htail : st.reassembly.tail.get? 0 = some slot := by
      rw [list_tail_get?]
      exact hget
    have hlen : 0 < st.reassembly.tail.length := by
      cases ht : st.reassembly.tail with
      | nil => rw [ht] at htail; exact Option.noConfusion htail
      | cons a t => simp
    unfold mps_reassembly_available mps_reassembly_consume
    rw [List.get?_append hlen, htail]
    exact hcomp

/-- Witness for `reassembly_slot_management`: feeding a future fragment 7
messages ahead of the expected sequence number 0 leaves the freshly
initialized state unchanged. -/
theorem reassembly_slot_management_witness :
    mps_reassembly_feed (mps_reassembly_init 0) ⟨7, 1, 0, 2, 0, [1, 2]⟩
      = some (mps_reassembly_init 0) ∧
    (mps_reassembly_init 0).reassembly.length = 5 := by
  refine ⟨(reassembly_slot_management 0).2.2.2.2.1
    (mps_reassembly_init 0) ⟨7, 1, 0, 2, 0, [1, 2]⟩ (by decide), ?_⟩
  rw [(reassembly_slot_management 0).1]
  decide

/-! ## Slot-0 exclusivity of the borrowed Layer 3 reader (C10) -/

/-- The slot status borrows the Layer 3 reader directly: true exactly for
`MPS_REASSEMBLY_NO_FRAGMENTATION` (whose data union member `rd_ext_l3` is
valid if and only if this holds, per mps.h). -/
def status_borrows_l3 : mbedtls_mps_msg_reassembly_state → Bool
  | .NO_FRAGMENTATION _ => true
  | .NONE => false
  | .WINDOW _ => false

/-- Invariant: no future-message slot (index ≥ 1) is in the
`NO_FRAGMENTATION` state. -/
def future_slots_owned (st : mps_reassembly) : Prop :=
  ∀ i slot, st.reassembly.get? (i + 1) = some slot →
    status_borrows_l3 slot.status = false

theorem slot_feed_not_borrow {idx : Nat} {slot slot₂ : mps_msg_reassembly}
    {f : mps_l3_hs_fragment} (hidx : idx ≠ 0)
    (h : slot_feed idx slot f = some slot₂) :
    status_borrows_l3 slot₂.status = false := by
  unfold slot_feed at h
  cases hst : slot.status with
  | NONE =>
    simp only [hst] at h
    rw [if_neg (fun hc => hidx hc.1)] at h
    cases hw : window_write (List.replicate f.total_len Option.none)
        f.offset f.bytes with
    | none =>
      simp only [hw] at h
      exact Option.noConfusion h
    | some w =>
      simp only [hw, Option.some.injEq] at h
      rw [← h]
      rfl
  | NO_FRAGMENTATION content =>
    simp only [hst] at h
    by_cases hc : slot.htype = f.htype ∧ slot.length = f.total_len ∧
        slot.epoch = f.epoch
    · rw [if_pos hc] at h
      cases hw₀ : window_write (List.replicate slot.length Option.none)
          0 content with
      | none =>
        simp only [hw₀] at h
        exact Option.noConfusion h
      | some w₀ =>
        simp only [hw₀] at h
        cases hw : window_write w₀ f.offset f.bytes with
        | none =>
          simp only [hw] at h
          exact Option.noConfusion h
        | some w =>
          simp only [hw, Option.some.injEq] at h
          rw [← h]
          rfl
    · rw [if_neg hc] at h
      exact Option.noConfusion h
  | WINDOW w =>
    simp only [hst] at h
    by_cases hc : slot.htype = f.htype ∧ slot.length = f.total_len ∧
        slot.epoch = f.epoch
    · rw [if_pos hc] at h
      cases hw : window_write w f.offset f.bytes with
      | none =>
        simp only [hw] at h
        exact Option.noConfusion h
      | some w₂ =>
        simp only [hw, Option.some.injEq] at h
        rw [← h]
        rfl
    · rw [if_neg hc] at h
      exact Option.noConfusion h

theorem future_slots_owned_feed {st st₂ : mps_reassembly}
    {f : mps_l3_hs_fragment} (h : mps_reassembly_feed st f = some st₂)
    (hinv : future_slots_owned st) : future_slots_owned st₂ := by
  unfold mps_reassembly_feed at h
  by_cases h1 : f.seq < st.next_seq_nr
  · rw [if_pos h1] at h; cases h; exact hinv
  · rw [if_neg h1] at h
    by_cases h2 : MBEDTLS_MPS_FUTURE_MESSAGE_BUFFERS < f.seq - st.next_seq_nr
    · rw [if_pos h2] at h; cases h; exact hinv
    · rw [if_neg h2] at h
      cases hg : st.reassembly.get? (f.seq - st.next_seq_nr) with
      | none =>
        simp only [hg] at h
        exact Option.noConfusion h
      | some slot =>
        simp only [hg] at h
        cases hs : slot_feed (f.seq - st.next_seq_nr) slot f with
        | none =>
          simp only [hs] at h
          exact Option.noConfusion h
        | some slot₂ =>
          simp only [hs, Option.some.injEq] at h
          subst h
          intro i sl hsl
          replace hsl :
              (st.reassembly.set (f.seq - st.next_seq_nr) slot₂).get? (i + 1)
                = some sl := hsl
          by_cases hidx : f.seq - st.next_seq_nr = i + 1
          · rw [hidx] at hsl hg hs
            rw [List.get?_set_eq, hg] at hsl
            have heq : some slot₂ = some sl := by simpa using hsl
            cases heq
            exact slot_feed_not_borrow (by omega) hs
          · rw [List.get?_set_ne _ _ hidx] at hsl
            exact hinv i sl hsl

theorem future_slots_owned_consume {st : mps_reassembly}
    (hinv : future_slots_owned st) :
    future_slots_owned (mps_reassembly_consume st) := by
  intro i slot hsl
  replace hsl :
      (st.reassembly.tail ++ [mps_msg_reassembly_empty]).get? (i + 1)
        = some slot := hsl
  by_cases hlt : i + 1 < st.reassembly.tail.length
  · rw [List.get?_append hlt, list_tail_get?] at hsl
    exact hinv (i + 1) slot hsl
  · rw [List.get?_append_right (by omega)] at hsl
    cases hk : i + 1 - st.reassembly.tail.length with
    | zero =>
      rw [hk] at hsl
      have h₂ : some mps_msg_reassembly_empty = some slot := hsl
      cases h₂
      rfl
    | succ k =>
      rw [hk] at hsl
      have h₂ : (Option.none : Option mps_msg_reassembly) = some slot := hsl
      exact Option.noConfusion h₂

theorem future_slots_owned_init (seq0 : Nat) :
    future_slots_owned (mps_reassembly_init seq0) := by
  intro i slot hsl
  have hmem := List.get?_mem hsl
  have heq : slot = mps_msg_reassembly_empty := by
    simpa [mps_reassembly_init] using hmem
  rw [heq]
  rfl

theorem future_slots_owned_step (st : mps_reassembly)
    (e : mps_reassembly_event) (hinv : future_slots_owned st) :
    future_slots_owned (mps_reassembly_step st e).1 := by
  cases e with
  | feed frag =>
    rw [mps_reassembly_step]
    cases hf : mps_reassembly_feed st frag with
    | none => exact hinv
    | some st₂ => exact future_slots_owned_feed hf hinv
  | consume =>
    rw [mps_reassembly_step]
    by_cases hav : mps_reassembly_available st = true
    · rw [if_pos hav]
      exact future_slots_owned_consume hinv
    · rw [if_neg hav]
      exact hinv

theorem future_slots_owned_run (events : List mps_reassembly_event) :
    ∀ st : mps_reassembly, future_slots_owned st →
      future_slots_owned (mps_reassembly_run st events).1 := by
  induction events with
  | nil => intro st h; exact h
  | cons e rest ih =>
    intro st h
    rw [mps_reassembly_run]
    exact ih _ (future_slots_owned_step st e h)

/-- C10: in every reachable reassembly state (any event sequence from
initialization), no future-message slot `1..K` is in the
`NO_FRAGMENTATION` state that borrows the Layer 3 reader directly: every
such slot that holds data is in the `WINDOW` state with an owned copy of
the bytes (and in the embedding the data union carries the borrowed reader
exactly in the `NO_FRAGMENTATION` status, per mps.h). Only slot 0 can
borrow the Layer 3 reader. -/
theorem only_slot_zero_borrows_l3 (seq0 : Nat)
    (events : List mps_reassembly_event) :
    ∀ i slot,
      (mps_reassembly_run (mps_reassembly_init seq0)
          events).1.reassembly.get? (i + 1) = some slot →
      status_borrows_l3 slot.status = false ∧
      (slot.status = .NONE ∨ ∃ w, slot.status = .WINDOW w) := by
  intro i slot hsl
  have hb := future_slots_owned_run events (mps_reassembly_init seq0)
    (future_slots_owned_init seq0) i slot hsl
  refine ⟨hb, ?_⟩
  cases hstatus : slot.status with
  | NONE => exact Or.inl rfl
  | WINDOW w => exact Or.inr ⟨w, rfl⟩
  | NO_FRAGMENTATION content =>
    rw [hstatus] at hb
    exact Bool.noConfusion hb

/-- Witness for `only_slot_zero_borrows_l3`: after feeding a future
fragment with sequence number 1 into the fresh state expecting 0, slot 1
holds a windowed (owned) copy, which does not borrow the Layer 3 reader. -/
theorem only_slot_zero_borrows_l3_witness :
    status_borrows_l3 (mps_msg_reassembly.mk
      (.WINDOW [some 9]) 1 0 1).status = false :=
  (only_slot_zero_borrows_l3 0 [.feed ⟨1, 1, 0, 1, 0, [9]⟩] 0
    (mps_msg_reassembly.mk (.WINDOW [some 9]) 1 0 1) (by decide)).1

/-! ## Outgoing handshake messages of unknown length (C8)

mps.h documents (fields `length` of `mbedtls_mps_handshake_out` and of
`mbedtls_mps_handshake_out_internal`) that the length of an outgoing
handshake message is either declared up front or
`MBEDTLS_MPS_LENGTH_UNKNOWN` (embedded as `Option.none`), and that in the
unknown case pausing is not possible because the headers of handshake
fragments include the total message length. The fragmentation code lives in
the implementation file, absent from the tree, and is modelled from the
spec. -/

/-- The MPS error verdicts relevant here (spec section on error kinds). -/
inductive mps_error where
  | bad_input
  | invalid_record
deriving DecidableEq

/-- The list of `(offset, fragment length)` pairs obtained by cutting
`remaining` bytes into successive fragments of capacity `cap`, starting at
`off`. -/
def frag_split (cap : Nat) (remaining off : Nat) : List (Nat × Nat) :=
  if h : remaining ≤ cap ∨ cap = 0 then [(off, remaining)]
  else (off, cap) :: frag_split cap (remaining - cap) (off + cap)
termination_by remaining
decreasing_by omega

/-- Modelled from the spec: concluding the write of an outgoing handshake
message (mps.c write-side fragmentation, not in the source tree): if the
user wrote at most one fragment's capacity, a single fragment is emitted;
if more was written and the total length was declared up front, successive
fragments are opened; if the length was not declared (unknown), an attempt
to exceed one fragment fails with the bad-input error. -/
def mbedtls_mps_dispatch_hs_fragments (length : Option Nat)
    (cap written : Nat) : Except mps_error (List (Nat × Nat)) :=
  if written ≤ cap then Except.ok [(0, written)]
  else
    match length with
    | Option.none => Except.error .bad_input
    | some _ => Except.ok (frag_split cap written 0)

/-- Modelled from the spec: pausing the writing of an outgoing handshake
message is allowed only when the total length was declared up front; with
unknown length it fails with bad-input (mps.h: pausing is not possible
because fragment headers carry the total length). -/
def mbedtls_mps_write_pause_check (length : Option Nat) :
    Except mps_error Unit :=
  match length with
  | Option.none => Except.error .bad_input
  | some _ => Except.ok ()

/-- C8: for an outgoing handshake message whose total length was not
declared up front, fragmentation and pausing are disallowed: writing that
fits in a single fragment succeeds, an attempt to exceed one fragment fails
with the bad-input error, and a pause attempt fails with the bad-input
error (while both are permitted when the length was declared). -/
theorem unknown_length_disallows_fragmentation :
    (∀ cap written : Nat, cap < written →
      mbedtls_mps_dispatch_hs_fragments Option.none cap written
        = Except.error .bad_input) ∧
    (∀ cap written : Nat, written ≤ cap →
      mbedtls_mps_dispatch_hs_fragments Option.none cap written
        = Except.ok [(0, written)]) ∧
    mbedtls_mps_write_pause_check Option.none = Except.error .bad_input ∧
    (∀ L : Nat,
      mbedtls_mps_write_pause_check (some L) = Except.ok ()) := by
  refine ⟨?_, ?_, rfl, fun L => rfl⟩
  · intro cap written h
    unfold mbedtls_mps_dispatch_hs_fragments
    rw [if_neg (by omega)]
  · intro cap written h
    unfold mbedtls_mps_dispatch_hs_fragments
    rw [if_pos h]

/-- Witness for `unknown_length_disallows_fragmentation`: with fragment
capacity 512, writing 513 bytes of a length-unknown message fails with
bad-input, while 512 bytes fit in a single fragment. -/
theorem unknown_length_disallows_fragmentation_witness :
    mbedtls_mps_dispatch_hs_fragments Option.none 512 513
      = Except.error .bad_input ∧
    mbedtls_mps_dispatch_hs_fragments Option.none 512 512
      = Except.ok [(0, 512)] :=
  ⟨unknown_length_disallows_fragmentation.1 512 513 (by decide),
    unknown_length_disallows_fragmentation.2.1 512 512 (by decide)⟩

/-! ## Error propagation and blocking (C9)

From mps.h: `mbedtls_mps_blocking_reason_t` and the blocking info stored in
the context, the connection states including `MBEDTLS_MPS_STATE_BLOCKED`,
and the documentation of `mbedtls_mps_send_fatal` ("This call blocks the
MPS except for mbedtls_mps_flush ... After delivery of the fatal alert,
the user must free the MPS"). The propagation logic itself is in the
implementation file, absent from the tree, and is modelled from the
spec. -/

/-- From mps.h: the reasons for MPS being blocked. -/
def MBEDTLS_MPS_ERROR_UNKNOWN : Nat := 0

/-- From mps.h: a fatal alert has been sent by the user. -/
def MBEDTLS_MPS_ERROR_ALERT_SENT : Nat := 1

/-- From mps.h: a fatal alert has been received from the peer. -/
def MBEDTLS_MPS_ERROR_ALERT_RECEIVED : Nat := 2

/-- From mps.h: an internal error led to blocking the MPS. -/
def MBEDTLS_MPS_ERROR_INTERNAL_ERROR : Nat := 3

/-- From mps.h: the connection is open. -/
def MBEDTLS_MPS_STATE_OPEN : Nat := 0

/-- From mps.h: the peer closed its writing side. -/
def MBEDTLS_MPS_STATE_WRITE_ONLY : Nat := 1

/-- From mps.h: we closed the writing side. -/
def MBEDTLS_MPS_STATE_READ_ONLY : Nat := 2

/-- From mps.h: the connection is fully closed. -/
def MBEDTLS_MPS_STATE_CLOSED : Nat := 3

/-- From mps.h: the MPS is blocked after an error. -/
def MBEDTLS_MPS_STATE_BLOCKED : Nat := 4

/-- From mps.h: the union inside `mbedtls_mps_blocking_info_t`, indexed by
the blocking reason: the alert type for alert-sent/alert-received, or the
internal error code. -/
inductive mps_blocking_detail where
  | alert (alert_type : Nat)
  | err (code : Int)
deriving DecidableEq

/-- From mps.h: `mbedtls_mps_blocking_info_t`: why an MPS instance was
blocked. -/
structure mbedtls_mps_blocking_info_t where
  reason : Nat
  info : mps_blocking_detail
deriving DecidableEq

/-- The state and error bookkeeping of `struct mbedtls_mps` relevant to
error propagation: the connection state and the blocking info. -/
structure mps_error_ctx where
  state : Nat
  blocking_info : mbedtls_mps_blocking_info_t
deriving DecidableEq

/-- The outcome of an internal MPS operation, per the spec error kinds:
success, the two non-fatal backpressure results, a fatal failure carrying
its blocking reason and detail, or the blocked error returned by a blocked
context. -/
inductive mps_result where
  | ok
  | want_read
  | want_write
  | fatal (reason : Nat) (detail : mps_blocking_detail)
  | blocked
deriving DecidableEq

/-- Modelled from the spec: the error propagation policy (mps.c, not in
the source tree): want-read and want-write are returned to the user
without blocking the context; every other failure is recorded in the
blocking info of the context and moves the connection state to
`MBEDTLS_MPS_STATE_BLOCKED`. -/
def mps_generic_failure_handling (ctx : mps_error_ctx) (r : mps_result) :
    mps_result × mps_error_ctx :=
  match r with
  | .ok => (.ok, ctx)
  | .want_read => (.want_read, ctx)
  | .want_write => (.want_write, ctx)
  | .fatal reason detail =>
      (.fatal reason detail, ⟨MBEDTLS_MPS_STATE_BLOCKED, ⟨reason, detail⟩⟩)
  | .blocked => (.blocked, ctx)

/-- The MPS API entry points of mps.h (read, write, maintenance and
shutdown interface). -/
inductive mps_api_call where
  | read
  | read_handshake
  | read_application
  | read_alert
  | read_consume
  | write_handshake
  | write_application
  | write_alert
  | write_ccs
  | dispatch
  | flush
  | close
  | free
deriving DecidableEq

/-- Modelled from the spec: "all calls but flush (to let a pending alert
reach the wire) and free return blocked" (mps.c, not in the source
tree). -/
def mps_call_allowed_when_blocked : mps_api_call → Bool
  | .flush => true
  | .free => true
  | _ => false

/-- Modelled from the spec: the gate at every API entry (mps.c, not in the
source tree): a blocked context refuses every call except flush and free
with the blocked error and stays unchanged; otherwise the call body runs
and its outcome passes through the failure handling. -/
def mps_api_entry (ctx : mps_error_ctx) (call : mps_api_call)
    (body : mps_result) : mps_result × mps_error_ctx :=
  if ctx.state = MBEDTLS_MPS_STATE_BLOCKED ∧
      mps_call_allowed_when_blocked call = false then
    (.blocked, ctx)
  else
    mps_generic_failure_handling ctx body

/-- C9: error propagation is atomic and sticky. A want-read or want-write
outcome is returned to the user unchanged and does not block the context;
any fatal failure is recorded in the blocking info and moves the state to
`MBEDTLS_MPS_STATE_BLOCKED`; once blocked, every call except flush and
free returns the blocked error without touching the context, and flush and
free are the only exempted calls. -/
theorem error_propagation_sticky :
    (∀ (ctx : mps_error_ctx) (call : mps_api_call) (body : mps_result),
      ctx.state ≠ MBEDTLS_MPS_STATE_BLOCKED →
      body = .want_read ∨ body = .want_write →
      mps_api_entry ctx call body = (body, ctx)) ∧
    (∀ (ctx : mps_error_ctx) (call : mps_api_call) (reason : Nat)
        (detail : mps_blocking_detail),
      ctx.state ≠ MBEDTLS_MPS_STATE_BLOCKED →
      mps_api_entry ctx call (.fatal reason detail)
        = (.fatal reason detail,
            ⟨MBEDTLS_MPS_STATE_BLOCKED, ⟨reason, detail⟩⟩)) ∧
    (∀ (ctx : mps_error_ctx) (call : mps_api_call) (body : mps_result),
      ctx.state = MBEDTLS_MPS_STATE_BLOCKED →
      mps_call_allowed_when_blocked call = false →
      mps_api_entry ctx call body = (.blocked, ctx)) ∧
    mps_call_allowed_when_blocked .flush = true ∧
    mps_call_allowed_when_blocked .free = true ∧
    (∀ call : mps_api_call, call ≠ .flush → call ≠ .free →
      mps_call_allowed_when_blocked call = false) := by
  refine ⟨?_, ?_, ?_, rfl, rfl, ?_⟩
  · intro ctx call body hst hb
    unfold mps_api_entry
    rw [if_neg (fun hc => hst hc.1)]
    rcases hb with hb | hb <;> rw [hb] <;> rfl
  · intro ctx call reason detail hst
    unfold mps_api_entry
    rw [if_neg (fun hc => hst hc.1)]
    rfl
  · intro ctx call body hst hcall
    unfold mps_api_entry
    rw [if_pos ⟨hst, hcall⟩]
  · intro call h₁ h₂
    cases call <;> first
      | rfl
      | exact absurd rfl h₁
      | exact absurd rfl h₂

/-- Witness for `error_propagation_sticky`: on an open context, want-read
passes through and a fatal alert-sent failure blocks the context; the
blocked context then refuses a read with the blocked error. -/
theorem error_propagation_sticky_witness :
    mps_api_entry ⟨MBEDTLS_MPS_STATE_OPEN, ⟨MBEDTLS_MPS_ERROR_UNKNOWN,
        .alert 0⟩⟩ .read .want_read
      = (.want_read, ⟨MBEDTLS_MPS_STATE_OPEN, ⟨MBEDTLS_MPS_ERROR_UNKNOWN,
        .alert 0⟩⟩) ∧
    mps_api_entry ⟨MBEDTLS_MPS_STATE_BLOCKED, ⟨MBEDTLS_MPS_ERROR_ALERT_SENT,
        .alert 40⟩⟩ .read .ok
      = (.blocked, ⟨MBEDTLS_MPS_STATE_BLOCKED, ⟨MBEDTLS_MPS_ERROR_ALERT_SENT,
        .alert 40⟩⟩) :=
  ⟨error_propagation_sticky.1 ⟨MBEDTLS_MPS_STATE_OPEN,
      ⟨MBEDTLS_MPS_ERROR_UNKNOWN, .alert 0⟩⟩ .read .want_read (by decide)
      (Or.inl rfl),
    error_propagation_sticky.2.2.1 ⟨MBEDTLS_MPS_STATE_BLOCKED,
      ⟨MBEDTLS_MPS_ERROR_ALERT_SENT, .alert 40⟩⟩ .read .ok rfl rfl⟩

end MPS
